import Mathlib

/-!
Verification development for the TurbuStat power-spectrum core.

The embedding covers the three source files:
  * `turbustat/statistics/base_pspec2.py` (`StatisticBase_PSpec2D`)
  * `turbustat/statistics/pspec_bispec/pspec.py` (`PowerSpectrum`, `PSpec_Distance`)
  * `turbustat/statistics/vca_vcs/slice_thickness.py` (`spectral_regrid_cube`)

Floating-point arrays are modelled by exact rationals; external numerical
primitives that the repository merely calls (the FFT, `numpy` logarithms and
square roots, the `statsmodels` ordinary-least-squares engine, and the
segmented-regression engine `Lm_Seg` which lives outside the staged sources)
are passed in as explicit function parameters, so every theorem below holds
for all choices of those primitives.
-/

/-- Exact model of a complex number (a `numpy` complex entry): real and
imaginary parts as rationals. -/
structure CQ where
  re : ℚ
  im : ℚ
deriving DecidableEq

/-- Squared magnitude `|z|^2 = re^2 + im^2` of a complex entry. -/
def CQ.magSq (z : CQ) : ℚ := z.re * z.re + z.im * z.im

/-- Complex division `z / w = z * conj w / |w|^2`; division by the zero
complex number yields zero, mirroring the rational convention used
throughout this development. -/
def CQ.div (z w : CQ) : CQ :=
  ⟨(z.re * w.re + z.im * w.im) / CQ.magSq w,
   (z.im * w.re - z.re * w.im) / CQ.magSq w⟩

/-- Elementwise map over a 2D array modelled as a list of rows. -/
def matMap (f : α → β) (m : List (List α)) : List (List β) :=
  m.map (List.map f)

/-- Elementwise combination of two 2D arrays (a `numpy` broadcast-free
binary operation on equal-shaped arrays). -/
def matZip (f : α → β → γ) (a : List (List α)) (b : List (List β)) :
    List (List γ) :=
  List.zipWith (List.zipWith f) a b

/-- One-dimensional `numpy.fft.fftshift`: the zero-frequency entry moves to
the centre, which is a rotation of the list by `ceil (n / 2)` places. -/
def fftshiftL (l : List α) : List α := l.rotate ((l.length + 1) / 2)

/-- Two-dimensional `numpy.fft.fftshift`: shift along both axes. -/
def fftshift2 (m : List (List α)) : List (List α) :=
  (fftshiftL m).map fftshiftL

/-- Scalar slope record: `fit_pspec` stores either the single OLS slope
(`self._slope = self.fit.params[1]`) or the array of segment slopes
(`self._slope = brk_fit.slopes`); `unset` stands for a Python attribute that
has not been assigned yet. -/
inductive SlopeVal where
  | unset
  | single (s : ℚ)
  | seg (ss : List ℚ)
deriving DecidableEq

/-- Non-fatal warnings emitted by `fit_pspec` through `warnings.warn`;
modelled as values returned next to the new state. -/
inductive FitWarning where
  | notEnoughPoints
  | breakFitFailed
deriving DecidableEq

/-- State of a `PowerSpectrum` instance (fields of `self` touched by the
staged sources).  Attributes that Python leaves unset until some method
assigns them are carried with inert default values by the constructor
model. -/
structure PowerSpectrumState where
  data : List (List ℚ)
  weighted_data : List (List ℚ)
  beam : Option (List (List ℚ))
  ps2D : List (List ℚ)
  freqs : List ℚ
  ps1D : List ℚ
  ps1D_stddev : Option (List ℚ)
  stddev_flag : Bool
  low_cut : ℚ
  high_cut : ℚ
  brk : Option ℚ
  brk_err : Option ℚ
  slope : SlopeVal
  slope_err : SlopeVal
deriving DecidableEq

/-- Replacement of invalid entries before any Fourier step:
`self.data[np.isnan(self.data)] = 0.0`.  A `none` entry models NaN. -/
def nanToZero (v : Option ℚ) : ℚ := v.getD 0

/-- Model of `PowerSpectrum.__init__`: zero out NaNs in the data, default
the weights to ones (NaN weights also zeroed), form
`self.weighted_data = self.data * weights`, set `self._ps1D_stddev = None`
and record the beam when one is supplied. -/
def powerSpectrum_init (img : List (List (Option ℚ)))
    (weights : Option (List (List (Option ℚ))))
    (beam : Option (List (List ℚ))) : PowerSpectrumState :=
  let data := img.map (List.map nanToZero)
  let w := match weights with
    | none => data.map (List.map (fun _ => (1 : ℚ)))
    | some ws => ws.map (List.map nanToZero)
  { data := data
    weighted_data := matZip (· * ·) data w
    beam := beam
    ps2D := []
    freqs := []
    ps1D := []
    ps1D_stddev := none
    stddev_flag := false
    low_cut := 0
    high_cut := 0
    brk := none
    brk_err := none
    slope := .unset
    slope_err := .unset }

/-- Input handed to the transform in `compute_pspec`: the weighted data,
multiplied elementwise by the apodizing kernel when `apodize` is set.  The
kernel itself comes from `BaseStatisticMixIn.apodizing_kernel` (outside the
staged sources) and is a parameter here. -/
def apod_input (st : PowerSpectrumState) (apodize : Bool)
    (kern : List (List ℚ)) : List (List ℚ) :=
  if apodize then matZip (· * ·) st.weighted_data kern else st.weighted_data

/-- Model of `PowerSpectrum.compute_pspec`.

`dft` is the 2D discrete Fourier transform primitive (`numpy.fft`, assumed
available per the spec).  Modelled from the spec: `rfft_to_fft` (not under
the staged sources) returns the magnitude of the full FFT of a real image —
the spec defines the power spectrum as the squared magnitude of the
transform and the source squares this function's output elementwise with
`np.power(fft, 2.)`.  Magnitudes of Gaussian rationals are irrational, so
the magnitude array is represented by the complex transform it is the
magnitude of, and the absolute value is folded into the squaring and
quotient steps: `|z|^2 = CQ.magSq z` and `(|z| / |w|)^2 = magSq z / magSq w`.
The beam kernel array (`self._beam.as_kernel(...).array`, an external
`astropy` construction) is the state's `beam` field; the
`beam_correct and hasattr(self, '_beam')` test becomes a match on that
optional field. -/
def compute_pspec (dft : List (List ℚ) → List (List CQ))
    (st : PowerSpectrumState) (beam_correct apodize : Bool)
    (kern : List (List ℚ)) : PowerSpectrumState :=
  let fft := fftshift2 (dft (apod_input st apodize kern))
  match beam_correct, st.beam with
  | true, some barr =>
    let beam_fft := fftshift2 (dft barr)
    { st with ps2D := matZip (fun z w => CQ.magSq z / CQ.magSq w) fft beam_fft }
  | _, _ => { st with ps2D := matMap CQ.magSq fft }

/-- Output of the radial binning engine `pspec` (`psds.py`, outside the
staged sources): bin-centre frequencies, binned powers and per-bin standard
deviations. -/
structure BinnedPSpec where
  freqs : List ℚ
  ps1D : List ℚ
  stddev : List ℚ

/-- Model of `StatisticBase_PSpec2D.compute_radial_pspec`: delegate to the
binning engine (a parameter, since `psds.pspec` is outside the staged
sources).  With `return_stddev` the standard deviation is stored and the
flag set; without it only frequencies and powers are stored, the flag is
cleared, and `_ps1D_stddev` is not assigned.  Attaching the `1 / u.pix`
unit to the frequencies is external unit bookkeeping and is the identity
here. -/
def compute_radial_pspec (pspecFn : List (List ℚ) → BinnedPSpec)
    (st : PowerSpectrumState) (return_stddev : Bool) : PowerSpectrumState :=
  if return_stddev then
    let r := pspecFn st.ps2D
    { st with freqs := r.freqs, ps1D := r.ps1D,
              ps1D_stddev := some r.stddev, stddev_flag := true }
  else
    let r := pspecFn st.ps2D
    { st with freqs := r.freqs, ps1D := r.ps1D, stddev_flag := false }

/-- Model of the `ps1D_stddev` property: when the flag is unset the source
constructs a `Warning` object but never raises or emits it (the bare
expression `Warning(...)` is a no-op), and in every case the stored field is
returned; the accessor is therefore a total function of the state. -/
def ps1D_stddev_prop (st : PowerSpectrumState) : Option (List ℚ) :=
  st.ps1D_stddev

/-- Model of `PSpec_Distance.distance_metric`'s computation
`np.abs((slope1 - slope2) / np.sqrt(slope_err1**2 + slope_err2**2))` on the
two fitted pipelines' scalar slopes.  `np.sqrt` is an external primitive and
is passed in abstractly, exactly where the source applies it. -/
def distance_metric (sqrtQ : ℚ → ℚ)
    (slope1 slope_err1 slope2 slope_err2 : ℚ) : ℚ :=
  |(slope1 - slope2) / sqrtQ (slope_err1 ^ 2 + slope_err2 ^ 2)|

/-- Maximum of a rational array (`numpy` `arr.max()`); the empty case never
arises in the source (an empty profile would raise) and returns `0`. -/
def listMax : List ℚ → ℚ
  | [] => 0
  | h :: t => t.foldl max h

/-- Minimum of a rational array (`numpy` `arr.min()`). -/
def listMin : List ℚ → ℚ
  | [] => 0
  | h :: t => t.foldl min h

/-- Modelled from the spec: `clip_func` (from `fitting_utils`, not under the
staged sources) restricts the (frequency, power) data to the fit range —
membership of a value in the closed interval between the two cutoffs. -/
def clip_func (v lo hi : ℚ) : Bool :=
  decide (lo ≤ v) && decide (v ≤ hi)

/-- Shape maximum `max(self.ps2D.shape)` of the stored 2D spectrum, with
rows-by-columns shape read off the list-of-rows representation. -/
def ps2D_shape_max (st : PowerSpectrumState) : ℕ :=
  max st.ps2D.length (st.ps2D.headD []).length

/-- Default low-frequency cutoff of `fit_pspec`:
`1. / (0.5 * float(max(self.ps2D.shape)) * u.pix)`. -/
def default_low_cut (st : PowerSpectrumState) : ℚ :=
  1 / ((1 / 2) * (ps2D_shape_max st : ℚ))

/-- Default high-frequency cutoff of `fit_pspec`:
`(self.freqs.max().value + 1) / u.pix`. -/
def default_high_cut (st : PowerSpectrumState) : ℚ :=
  listMax st.freqs + 1

/-- Low cutoff actually used by `fit_pspec`: the default when the caller
omits it, otherwise the caller's value (its conversion to per-pixel
frequency, `_to_pixel_freq`, is external unit bookkeeping and the identity
here). -/
def resolved_low_cut (st : PowerSpectrumState) (lc : Option ℚ) : ℚ :=
  lc.getD (default_low_cut st)

/-- High cutoff actually used by `fit_pspec`; see `resolved_low_cut`. -/
def resolved_high_cut (st : PowerSpectrumState) (hc : Option ℚ) : ℚ :=
  hc.getD (default_high_cut st)

/-- Cutoff-restricted (frequency, power) pairs:
`self.freqs[clip_func(...)]` zipped with `self.ps1D[clip_func(...)]` (the
same boolean mask is applied to both equal-length arrays). -/
def fit_pairs (st : PowerSpectrumState) (lo hi : ℚ) : List (ℚ × ℚ) :=
  (st.freqs.zip st.ps1D).filter (fun p => clip_func p.1 lo hi)

/-- Regression abscissae `x = np.log10(self.freqs[clip_func(...)])`;
`log10` is the external `numpy` primitive. -/
def fit_x (log10 : ℚ → ℚ) (st : PowerSpectrumState) (lo hi : ℚ) : List ℚ :=
  (fit_pairs st lo hi).map (fun p => log10 p.1)

/-- Regression ordinates `y = np.log10(self.ps1D[clip_func(...)])`. -/
def fit_y (log10 : ℚ → ℚ) (st : PowerSpectrumState) (lo hi : ℚ) : List ℚ :=
  (fit_pairs st lo hi).map (fun p => log10 p.2)

/-- Modelled from the spec: result of the segmented regression engine
`Lm_Seg` (`lm_seg.py` is not under the staged sources; spec 4.2 describes a
piecewise-linear fit with five fitted parameters, a fitted break with its
standard error, and two segment slopes with theirs).  The claims here only
concern how `fit_pspec` consumes this result, so the engine itself is an
arbitrary function into this record. -/
structure LmSegResult where
  params : List ℚ
  brk : ℚ
  brk_err : ℚ
  slopes : List ℚ
  slope_errs : List ℚ

/-- Model of `StatisticBase_PSpec2D.fit_pspec`.

Parameters standing for external primitives: `ols` is the
`statsmodels` ordinary-least-squares engine returning
`(fit.params[1], fit.bse[1])` for the given (x, y) data; `lmseg` is the
`Lm_Seg` engine (see `LmSegResult`); `log10` and `pow10` are the `numpy`
base-10 logarithm and its inverse; `ln10` is the constant `np.log(10)`.

The returned warning list models the `warnings.warn` calls.  Mirroring the
source: the cutoffs are resolved and stored; with a break guess the guess is
log-transformed unless `log_break` is set; when the segmented fit converges
to five parameters but fewer than `min_fits_pts` abscissae lie strictly
below the fitted break, the break is discarded (only `_brk` is assigned,
`None`) with a warning; on acceptance the break is stored out of log space
as `10**brk_fit.brk` with error `np.log(10) * self.brk.value *
brk_fit.brk_err`, and the segment slopes and their errors are stored; when
the segmented fit does not converge to five parameters the break is
discarded with a warning; without a break guess both `_brk` and `_brk_err`
are set to `None`.  Finally, whenever the stored break is `None`, the
no-break OLS fit on the (unfiltered) cutoff-restricted data supplies the
slope and its error. -/
def fit_pspec (ols : List (ℚ × ℚ) → ℚ × ℚ)
    (lmseg : List ℚ → List ℚ → ℚ → LmSegResult)
    (log10 pow10 : ℚ → ℚ) (ln10 : ℚ)
    (st : PowerSpectrumState) (brk0 : Option ℚ) (log_break : Bool)
    (low_cut high_cut : Option ℚ) (min_fits_pts : ℕ) :
    PowerSpectrumState × List FitWarning :=
  let lo := resolved_low_cut st low_cut
  let hi := resolved_high_cut st high_cut
  let x := fit_x log10 st lo hi
  let y := fit_y log10 st lo hi
  let step1 : PowerSpectrumState × List FitWarning :=
    match brk0 with
    | none =>
      ({ st with low_cut := lo, high_cut := hi,
                 brk := none, brk_err := none }, [])
    | some b0 =>
      let bseed := if log_break then b0 else log10 b0
      let r := lmseg x y bseed
      if r.params.length = 5 then
        if x.countP (fun v => decide (v < r.brk)) < min_fits_pts then
          ({ st with low_cut := lo, high_cut := hi, brk := none },
           [.notEnoughPoints])
        else
          ({ st with low_cut := lo, high_cut := hi,
                     brk := some (pow10 r.brk),
                     brk_err := some (ln10 * pow10 r.brk * r.brk_err),
                     slope := .seg r.slopes,
                     slope_err := .seg r.slope_errs }, [])
      else
        ({ st with low_cut := lo, high_cut := hi, brk := none },
         [.breakFitFailed])
  if step1.1.brk = none then
    let sres := ols (x.zip y)
    ({ step1.1 with slope := .single sres.1, slope_err := .single sres.2 },
     step1.2)
  else step1

/-- Spectral cube as seen by `spectral_regrid_cube`: only the spectral axis
matters to the staged code (the spatial planes are handed to external
`spectral_cube` library routines). -/
structure SpecCube where
  spectral_axis : List ℚ
deriving DecidableEq

/-- Channel-width argument of `spectral_regrid_cube`: a Python `int`, or an
`astropy` Quantity whose unit either is pixel-equivalent or is a spectral
unit of the cube axis. -/
inductive ChannelWidth where
  | intw (n : ℤ)
  | qty (isPix : Bool) (v : ℚ)
deriving DecidableEq

/-- Regridding method name (the source rejects any other string before
doing anything else; strings are not modelled). -/
inductive RegridMethod where
  | downsample
  | regrid
deriving DecidableEq

/-- Fatal errors raised by `spectral_regrid_cube`. -/
inductive RegridError where
  | nonIntDownsample
  | nonQtyRegrid
  | upsample (target dfactor : ℚ)
deriving DecidableEq

/-- Successful outcomes of `spectral_regrid_cube`.  `downsampled` delegates
to the external `cube.downsample_axis`; `unchangedWarn` is the warned no-op
returning the original cube; `regridded` records the new uniform spectral
axis onto which the externally smoothed cube is interpolated. -/
inductive RegridOutcome where
  | downsampled (width : ℤ)
  | unchangedWarn (axis : List ℚ)
  | regridded (newaxis : List ℚ)
deriving DecidableEq

/-- Current channel width `np.diff(cube.spectral_axis[:2])[0]`: the
difference of the first two spectral samples. -/
def axis_step (c : SpecCube) : ℚ :=
  c.spectral_axis.getD 1 0 - c.spectral_axis.getD 0 0

/-- Target resolution: a pixel-unit width scales the current channel width
(`channel_width.value * spec_width`), a spectral-unit width is used
directly (its `astropy` unit conversion is the identity here). -/
def target_resolution (c : SpecCube) (isPix : Bool) (v : ℚ) : ℚ :=
  if isPix then v * axis_step c else v

/-- Width ratio `np.abs(target_resolution / current_resolution)`. -/
def diff_factor (c : SpecCube) (isPix : Bool) (v : ℚ) : ℚ :=
  |target_resolution c isPix v / axis_step c|

/-- New channel count `int(np.floor_divide(cube.shape[0], diff_factor))`. -/
def regrid_num_chan (c : SpecCube) (isPix : Bool) (v : ℚ) : ℕ :=
  (⌊(c.spectral_axis.length : ℚ) / diff_factor c isPix v⌋).toNat

/-- Model of `numpy.linspace(a, b, n)` with the default inclusive
endpoint: `n` evenly spaced samples from `a` to `b`. -/
def linspace (a b : ℚ) (n : ℕ) : List ℚ :=
  if n = 1 then [a]
  else (List.range n).map (fun i : ℕ => a + (i : ℚ) * ((b - a) / ((n : ℚ) - 1)))

/-- New spectral axis of the regrid branch:
`np.linspace(axis.min(), axis.max(), num_chan)`, reversed when the current
resolution is negative so the axis keeps its original direction. -/
def regrid_axis (c : SpecCube) (isPix : Bool) (v : ℚ) : List ℚ :=
  let base := linspace (listMin c.spectral_axis) (listMax c.spectral_axis)
    (regrid_num_chan c isPix v)
  if axis_step c < 0 then base.reverse else base

/-- Model of `spectral_regrid_cube`.

The `downsample` branch type-checks the width and delegates to the external
`cube.downsample_axis`.  The `regrid` branch type-checks the width, compares
the target against the current resolution — equality is a warned no-op
returning the original cube, a strictly smaller ratio is a fatal
`ValueError` raised before any data mutation — and otherwise Gaussian-smooths
the cube (an external `astropy`/`spectral_cube` step whose kernel width
`sqrt(target**2 - current**2) / |current| / sqrt(8 ln 2)` does not affect the
axis) and interpolates it onto `regrid_axis`. -/
def spectral_regrid_cube (cube : SpecCube) (channel_width : ChannelWidth)
    (method : RegridMethod) : Except RegridError RegridOutcome :=
  match method with
  | .downsample =>
    match channel_width with
    | .intw n => .ok (.downsampled n)
    | .qty _ _ => .error .nonIntDownsample
  | .regrid =>
    match channel_width with
    | .intw _ => .error .nonQtyRegrid
    | .qty isPix v =>
      let dfac := diff_factor cube isPix v
      if dfac = 1 then .ok (.unchangedWarn cube.spectral_axis)
      else if dfac < 1 then
        .error (.upsample (target_resolution cube isPix v) dfac)
      else .ok (.regridded (regrid_axis cube isPix v))

/-- Uniform grid: some common spacing separates every pair of consecutive
samples. -/
def UniformSpacing (l : List ℚ) : Prop :=
  ∃ d : ℚ, l.Chain' (fun x y => y - x = d)

/-- Strictly ascending spectral axis. -/
def StrictlyAscending (l : List ℚ) : Prop := l.Chain' (· < ·)

/-- Strictly descending spectral axis. -/
def StrictlyDescending (l : List ℚ) : Prop := l.Chain' (· > ·)

/-- Concrete state used by the example instantiations below: a fitted-ready
pipeline with a 2-by-2 spectrum, two binned frequencies and a previously
stored break error. -/
def stW : PowerSpectrumState :=
  { data := [], weighted_data := [], beam := none,
    ps2D := [[0, 0], [0, 0]],
    freqs := [1, 2], ps1D := [4, 8],
    ps1D_stddev := none, stddev_flag := false,
    low_cut := 0, high_cut := 0,
    brk := none, brk_err := some 42,
    slope := .unset, slope_err := .unset }

/-- Concrete state with a non-integral maximal frequency, for the default
high-cutoff computation. -/
def stW3 : PowerSpectrumState :=
  { data := [], weighted_data := [], beam := none,
    ps2D := [[0, 0], [0, 0]],
    freqs := [1 / 2, 1], ps1D := [1, 1],
    ps1D_stddev := none, stddev_flag := false,
    low_cut := 0, high_cut := 0,
    brk := none, brk_err := none,
    slope := .unset, slope_err := .unset }

/-- Concrete stand-in for the external OLS engine in the examples. -/
def olsW : List (ℚ × ℚ) → ℚ × ℚ := fun l => ((l.length : ℚ), 7)

/-- Concrete stand-in for the segmented-regression engine in the examples:
it always converges to five parameters and fits the break at the seed. -/
def lmsegW : List ℚ → List ℚ → ℚ → LmSegResult :=
  fun _ _ b => ⟨[0, 0, 0, 0, 0], b, 1, [5], [6]⟩

theorem CQ.magSq_nonneg (z : CQ) : 0 ≤ z.magSq :=
  add_nonneg (mul_self_nonneg _) (mul_self_nonneg _)

theorem CQ.magSq_div (z w : CQ) : (CQ.div z w).magSq = z.magSq / w.magSq := by
  by_cases h : w.magSq = 0
  · have h2 : w.re * w.re + w.im * w.im = 0 := h
    have hre : w.re = 0 := by nlinarith [mul_self_nonneg w.re, mul_self_nonneg w.im]
    have him : w.im = 0 := by nlinarith [mul_self_nonneg w.re, mul_self_nonneg w.im]
    simp [CQ.div, CQ.magSq, hre, him]
  · have h2 : w.re * w.re + w.im * w.im ≠ 0 := h
    simp only [CQ.div, CQ.magSq]
    field_simp
    ring

theorem matZip_magSq_div (A B : List (List CQ)) :
    matZip (fun z w => CQ.magSq z / CQ.magSq w) A B =
      matMap CQ.magSq (matZip CQ.div A B) := by
  have hf : (fun z w => CQ.magSq z / CQ.magSq w) =
      fun z w => CQ.magSq (CQ.div z w) := by
    funext z w
    rw [CQ.magSq_div]
  simp [matZip, matMap, List.map_zipWith, hf]

/-- C2: for every image, `compute_pspec` stores in `ps2D` the squared
magnitude of the (optionally apodized, optionally beam-divided)
frequency-centered 2D Fourier transform of the weighted data; in particular
every entry of `ps2D` is a non-negative real number.  (The transform
primitive `dft` and the apodizing kernel are arbitrary.) -/
theorem compute_pspec_squared_magnitude
    (dft : List (List ℚ) → List (List CQ)) (st : PowerSpectrumState)
    (beam_correct apodize : Bool) (kern : List (List ℚ)) :
    (compute_pspec dft st beam_correct apodize kern).ps2D =
      matMap CQ.magSq
        (match beam_correct, st.beam with
         | true, some barr =>
             matZip CQ.div (fftshift2 (dft (apod_input st apodize kern)))
               (fftshift2 (dft barr))
         | _, _ => fftshift2 (dft (apod_input st apodize kern))) ∧
    ∀ row ∈ (compute_pspec dft st beam_correct apodize kern).ps2D,
      ∀ v ∈ row, 0 ≤ v := by
  have h1 : (compute_pspec dft st beam_correct apodize kern).ps2D =
      matMap CQ.magSq
        (match beam_correct, st.beam with
         | true, some barr =>
             matZip CQ.div (fftshift2 (dft (apod_input st apodize kern)))
               (fftshift2 (dft barr))
         | _, _ => fftshift2 (dft (apod_input st apodize kern))) := by
    cases beam_correct <;> rcases hb : st.beam with _ | barr <;>
      simp [compute_pspec, hb, matZip_magSq_div]
  refine ⟨h1, ?_⟩
  intro row hrow v hv
  rw [h1] at hrow
  simp only [matMap, List.mem_map] at hrow
  obtain ⟨r, _, rfl⟩ := hrow
  simp only [List.mem_map] at hv
  obtain ⟨z, _, rfl⟩ := hv
  exact CQ.magSq_nonneg z

/-- C4: a pipeline constructed without a beam computes, under
`beam_correct`, the same 2D spectrum as without it: the
`hasattr(self, '_beam')` guard silently degrades to the uncorrected
branch. -/
theorem compute_pspec_beamless_beam_correct_noop
    (dft : List (List ℚ) → List (List CQ)) (st : PowerSpectrumState)
    (apodize : Bool) (kern : List (List ℚ)) (h : st.beam = none) :
    compute_pspec dft st true apodize kern =
      compute_pspec dft st false apodize kern := by
  simp [compute_pspec, h]

theorem compute_pspec_beamless_beam_correct_noop_witness :
    (powerSpectrum_init [[some 1, none], [some 2, some 3]] none none).beam
        = none ∧
    compute_pspec (fun m => matMap (fun q => CQ.mk q 0) m)
        (powerSpectrum_init [[some 1, none], [some 2, some 3]] none none)
        true true [[1, 1], [1, 1]] =
      compute_pspec (fun m => matMap (fun q => CQ.mk q 0) m)
        (powerSpectrum_init [[some 1, none], [some 2, some 3]] none none)
        false true [[1, 1], [1, 1]] :=
  ⟨rfl, compute_pspec_beamless_beam_correct_noop _ _ _ _ rfl⟩

/-- C5: `distance_metric` computes
`|slope1 - slope2| / sqrt(slope_err1^2 + slope_err2^2)` (given that the
square-root primitive returns a non-negative value, as `np.sqrt` does), and
the scalar is unchanged when the two fitted pipelines are exchanged. -/
theorem distance_metric_formula_symm (sqrtQ : ℚ → ℚ) (s1 e1 s2 e2 : ℚ)
    (hs : 0 ≤ sqrtQ (e1 ^ 2 + e2 ^ 2)) :
    distance_metric sqrtQ s1 e1 s2 e2 =
      |s1 - s2| / sqrtQ (e1 ^ 2 + e2 ^ 2) ∧
    distance_metric sqrtQ s1 e1 s2 e2 = distance_metric sqrtQ s2 e2 s1 e1 := by
  constructor
  · rw [distance_metric, abs_div, abs_of_nonneg hs]
  · rw [distance_metric, distance_metric, add_comm (e2 ^ 2) (e1 ^ 2),
      show s2 - s1 = -(s1 - s2) from by ring, neg_div, abs_neg]

theorem distance_metric_formula_symm_witness :
    distance_metric id 3 1 1 2 = |(3 : ℚ) - 1| / id ((1 : ℚ) ^ 2 + 2 ^ 2) ∧
    distance_metric id 3 1 1 2 = distance_metric id 1 2 3 1 :=
  distance_metric_formula_symm id 3 1 1 2 (by norm_num)

/-- C10: after construction (which sets the standard-deviation field to
`None`) and a radial computation with `return_stddev=False`, reading the
`ps1D_stddev` property returns `None` and raises nothing: the accessor is a
total function of the state (the `Warning` object it builds is never
raised), and the field keeps the `None` assigned at construction. -/
theorem ps1D_stddev_none_after_no_stddev
    (pspecFn : List (List ℚ) → BinnedPSpec)
    (img : List (List (Option ℚ)))
    (weights : Option (List (List (Option ℚ))))
    (beam : Option (List (List ℚ))) :
    ps1D_stddev_prop
      (compute_radial_pspec pspecFn (powerSpectrum_init img weights beam)
        false) = none := by
  simp [ps1D_stddev_prop, compute_radial_pspec, powerSpectrum_init]

theorem le_foldl_max (l : List ℚ) (b : ℚ) : b ≤ l.foldl max b := by
  induction l generalizing b with
  | nil => simp
  | cons h t ih =>
    rw [List.foldl_cons]
    exact le_trans (le_max_left b h) (ih (max b h))

theorem mem_le_foldl_max (l : List ℚ) (b a : ℚ) (ha : a ∈ l) :
    a ≤ l.foldl max b := by
  induction l generalizing b with
  | nil => cases ha
  | cons h t ih =>
    rw [List.foldl_cons]
    rcases List.mem_cons.mp ha with rfl | hmem
    · exact le_trans (le_max_right b a) (le_foldl_max t (max b a))
    · exact ih (max b h) hmem

theorem mem_le_listMax {a : ℚ} {l : List ℚ} (ha : a ∈ l) : a ≤ listMax l := by
  cases l with
  | nil => cases ha
  | cons h t =>
    rcases List.mem_cons.mp ha with rfl | hmem
    · exact le_foldl_max t a
    · exact mem_le_foldl_max t h a hmem

theorem fit_pspec_cutoffs (ols : List (ℚ × ℚ) → ℚ × ℚ)
    (lmseg : List ℚ → List ℚ → ℚ → LmSegResult)
    (log10 pow10 : ℚ → ℚ) (ln10 : ℚ) (st : PowerSpectrumState)
    (brk0 : Option ℚ) (log_break : Bool) (lc hc : Option ℚ) (mfp : ℕ) :
    (fit_pspec ols lmseg log10 pow10 ln10 st brk0 log_break lc hc mfp).1.low_cut
        = resolved_low_cut st lc ∧
    (fit_pspec ols lmseg log10 pow10 ln10 st brk0 log_break lc hc mfp).1.high_cut
        = resolved_high_cut st hc := by
  rcases brk0 with _ | b0
  · simp [fit_pspec]
  · refine ⟨?_, ?_⟩ <;>
      (simp only [fit_pspec]; repeat' split) <;> simp

/-- C3 (amended): with `low_cut` and `high_cut` omitted, `fit_pspec` uses
`1 / (half the largest `ps2D` dimension)` as low cutoff and
`max(freqs) + 1` (not the maximum itself) as high cutoff; the data passed
to the regression are exactly the base-10-log-transformed points whose
frequency lies within these bounds, which — since every binned frequency is
at most the maximum — are exactly the points at or above the low cutoff. -/
theorem fit_pspec_default_cutoffs (ols : List (ℚ × ℚ) → ℚ × ℚ)
    (lmseg : List ℚ → List ℚ → ℚ → LmSegResult)
    (log10 pow10 : ℚ → ℚ) (ln10 : ℚ) (st : PowerSpectrumState)
    (brk0 : Option ℚ) (log_break : Bool) (mfp : ℕ) :
    (fit_pspec ols lmseg log10 pow10 ln10 st brk0 log_break none none
        mfp).1.low_cut = 1 / ((1 / 2) * (ps2D_shape_max st : ℚ)) ∧
    (fit_pspec ols lmseg log10 pow10 ln10 st brk0 log_break none none
        mfp).1.high_cut = listMax st.freqs + 1 ∧
    fit_pairs st (default_low_cut st) (default_high_cut st) =
      (st.freqs.zip st.ps1D).filter
        (fun p => decide (default_low_cut st ≤ p.1)) ∧
    (fit_pspec ols lmseg log10 pow10 ln10 st none log_break none none
        mfp).1.slope =
      .single (ols ((fit_x log10 st (default_low_cut st)
        (default_high_cut st)).zip (fit_y log10 st (default_low_cut st)
        (default_high_cut st)))).1 := by
  obtain ⟨h1, h2⟩ := fit_pspec_cutoffs ols lmseg log10 pow10 ln10 st brk0
    log_break none none mfp
  refine ⟨?_, ?_, ?_, ?_⟩
  · rw [h1]
    simp [resolved_low_cut, default_low_cut]
  · rw [h2]
    simp [resolved_high_cut, default_high_cut]
  · unfold fit_pairs
    apply List.filter_congr
    rintro ⟨a, b⟩ hmem
    obtain ⟨hf, -⟩ := List.of_mem_zip hmem
    have hle : a ≤ default_high_cut st := by
      have := mem_le_listMax hf
      simp only [default_high_cut]
      linarith
    simp [clip_func, hle]
  · simp [fit_pspec, resolved_low_cut, resolved_high_cut]

/-- C3 counterexample: on a concrete pipeline whose binned frequencies are
`[1/2, 1]`, the stored default high cutoff is `2`, not the maximum
frequency `1` claimed. -/
theorem fit_pspec_default_high_cut_not_max :
    (fit_pspec olsW lmsegW id id 1 stW3 none false none none
        10).1.high_cut = 2 ∧
    listMax stW3.freqs = 1 ∧ (2 : ℚ) ≠ 1 := by
  refine ⟨?_, ?_, by norm_num⟩
  · obtain ⟨-, h2⟩ := fit_pspec_cutoffs olsW lmsegW id id 1 stW3 none false
      none none 10
    rw [h2]
    norm_num [resolved_high_cut, default_high_cut, listMax, stW3]
  · norm_num [listMax, stW3]

/-- C1: when the segmented fit converges to five parameters but fewer than
`min_fits_pts` abscissae lie strictly below the fitted break, `fit_pspec`
discards the break with a non-fatal warning, leaves `brk` as `None`, and
returns the slope and slope error of the no-break OLS fit on the same
cutoff-restricted, log-transformed data (both directly and as produced by a
call without a break guess). -/
theorem fit_pspec_break_rejected_falls_back (ols : List (ℚ × ℚ) → ℚ × ℚ)
    (lmseg : List ℚ → List ℚ → ℚ → LmSegResult)
    (log10 pow10 : ℚ → ℚ) (ln10 : ℚ) (st : PowerSpectrumState)
    (b0 : ℚ) (log_break : Bool) (lc hc : Option ℚ) (mfp : ℕ)
    (h5 : (lmseg
        (fit_x log10 st (resolved_low_cut st lc) (resolved_high_cut st hc))
        (fit_y log10 st (resolved_low_cut st lc) (resolved_high_cut st hc))
        (if log_break then b0 else log10 b0)).params.length = 5)
    (hfew : (fit_x log10 st (resolved_low_cut st lc)
        (resolved_high_cut st hc)).countP
        (fun v => decide (v < (lmseg
          (fit_x log10 st (resolved_low_cut st lc) (resolved_high_cut st hc))
          (fit_y log10 st (resolved_low_cut st lc) (resolved_high_cut st hc))
          (if log_break then b0 else log10 b0)).brk)) < mfp) :
    (fit_pspec ols lmseg log10 pow10 ln10 st (some b0) log_break lc hc
        mfp).1.brk = none ∧
    (fit_pspec ols lmseg log10 pow10 ln10 st (some b0) log_break lc hc
        mfp).2 = [FitWarning.notEnoughPoints] ∧
    (fit_pspec ols lmseg log10 pow10 ln10 st (some b0) log_break lc hc
        mfp).1.slope = .single (ols
          ((fit_x log10 st (resolved_low_cut st lc)
            (resolved_high_cut st hc)).zip
           (fit_y log10 st (resolved_low_cut st lc)
            (resolved_high_cut st hc)))).1 ∧
    (fit_pspec ols lmseg log10 pow10 ln10 st (some b0) log_break lc hc
        mfp).1.slope_err = .single (ols
          ((fit_x log10 st (resolved_low_cut st lc)
            (resolved_high_cut st hc)).zip
           (fit_y log10 st (resolved_low_cut st lc)
            (resolved_high_cut st hc)))).2 ∧
    (fit_pspec ols lmseg log10 pow10 ln10 st (some b0) log_break lc hc
        mfp).1.slope =
      (fit_pspec ols lmseg log10 pow10 ln10 st none log_break lc hc
        mfp).1.slope ∧
    (fit_pspec ols lmseg log10 pow10 ln10 st (some b0) log_break lc hc
        mfp).1.slope_err =
      (fit_pspec ols lmseg log10 pow10 ln10 st none log_break lc hc
        mfp).1.slope_err := by
  simp [fit_pspec, h5, hfew]

theorem fit_pspec_break_rejected_falls_back_witness :
    (fit_pspec olsW lmsegW id id 1 stW (some 5) true none none 10).1.brk
        = none ∧
    (fit_pspec olsW lmsegW id id 1 stW (some 5) true none none 10).2
        = [FitWarning.notEnoughPoints] ∧
    (fit_pspec olsW lmsegW id id 1 stW (some 5) true none none 10).1.slope =
      (fit_pspec olsW lmsegW id id 1 stW none true none none
        10).1.slope := by
  have h := fit_pspec_break_rejected_falls_back olsW lmsegW id id 1 stW 5
    true none none 10 (by rfl)
    (by norm_num [fit_x, fit_pairs, clip_func, resolved_low_cut,
      resolved_high_cut, default_low_cut, default_high_cut, ps2D_shape_max,
      listMax, stW, lmsegW, List.zip, List.zipWith, List.filter,
      List.countP_cons, List.countP_nil, Option.getD_none, List.headD])
  exact ⟨h.1, h.2.1, h.2.2.2.2.1⟩

/-- C8: when `fit_pspec` accepts a fitted break, the stored break is
`10 ** brk_fit.brk` (per pixel) and the stored break error is
`np.log(10)` times that linear break value times the log-space break
error. -/
theorem fit_pspec_break_accepted_stores_linear_break
    (ols : List (ℚ × ℚ) → ℚ × ℚ)
    (lmseg : List ℚ → List ℚ → ℚ → LmSegResult)
    (log10 pow10 : ℚ → ℚ) (ln10 : ℚ) (st : PowerSpectrumState)
    (b0 : ℚ) (log_break : Bool) (lc hc : Option ℚ) (mfp : ℕ)
    (h5 : (lmseg
        (fit_x log10 st (resolved_low_cut st lc) (resolved_high_cut st hc))
        (fit_y log10 st (resolved_low_cut st lc) (resolved_high_cut st hc))
        (if log_break then b0 else log10 b0)).params.length = 5)
    (hmany : ¬ ((fit_x log10 st (resolved_low_cut st lc)
        (resolved_high_cut st hc)).countP
        (fun v => decide (v < (lmseg
          (fit_x log10 st (resolved_low_cut st lc) (resolved_high_cut st hc))
          (fit_y log10 st (resolved_low_cut st lc) (resolved_high_cut st hc))
          (if log_break then b0 else log10 b0)).brk)) < mfp)) :
    (fit_pspec ols lmseg log10 pow10 ln10 st (some b0) log_break lc hc
        mfp).1.brk = some (pow10 (lmseg
          (fit_x log10 st (resolved_low_cut st lc) (resolved_high_cut st hc))
          (fit_y log10 st (resolved_low_cut st lc) (resolved_high_cut st hc))
          (if log_break then b0 else log10 b0)).brk) ∧
    (fit_pspec ols lmseg log10 pow10 ln10 st (some b0) log_break lc hc
        mfp).1.brk_err = some (ln10 * pow10 (lmseg
          (fit_x log10 st (resolved_low_cut st lc) (resolved_high_cut st hc))
          (fit_y log10 st (resolved_low_cut st lc) (resolved_high_cut st hc))
          (if log_break then b0 else log10 b0)).brk * (lmseg
          (fit_x log10 st (resolved_low_cut st lc) (resolved_high_cut st hc))
          (fit_y log10 st (resolved_low_cut st lc) (resolved_high_cut st hc))
          (if log_break then b0 else log10 b0)).brk_err) := by
  simp [fit_pspec, h5, hmany]

theorem fit_pspec_break_accepted_stores_linear_break_witness :
    (fit_pspec olsW lmsegW id id 1 stW (some 5) true none none 1).1.brk
        = some (id (5 : ℚ)) ∧
    (fit_pspec olsW lmsegW id id 1 stW (some 5) true none none 1).1.brk_err
        = some (1 * id (5 : ℚ) * 1) := by
  have h := fit_pspec_break_accepted_stores_linear_break olsW lmsegW id id 1
    stW 5 true none none 1 (by rfl)
    (by norm_num [fit_x, fit_pairs, clip_func, resolved_low_cut,
      resolved_high_cut, default_low_cut, default_high_cut, ps2D_shape_max,
      listMax, stW, lmsegW, List.zip, List.zipWith, List.filter,
      List.countP_cons, List.countP_nil, Option.getD_none, List.headD])
  exact h

/-- C9: when `fit_pspec` rejects a fitted break for lack of points below
it, only the `brk` field is assigned (to `None`); `brk_err` is left exactly
as it was before the call — it is assigned `None` only on the path without
a break guess. -/
theorem fit_pspec_break_rejected_preserves_brk_err
    (ols : List (ℚ × ℚ) → ℚ × ℚ)
    (lmseg : List ℚ → List ℚ → ℚ → LmSegResult)
    (log10 pow10 : ℚ → ℚ) (ln10 : ℚ) (st : PowerSpectrumState)
    (b0 : ℚ) (log_break : Bool) (lc hc : Option ℚ) (mfp : ℕ)
    (h5 : (lmseg
        (fit_x log10 st (resolved_low_cut st lc) (resolved_high_cut st hc))
        (fit_y log10 st (resolved_low_cut st lc) (resolved_high_cut st hc))
        (if log_break then b0 else log10 b0)).params.length = 5)
    (hfew : (fit_x log10 st (resolved_low_cut st lc)
        (resolved_high_cut st hc)).countP
        (fun v => decide (v < (lmseg
          (fit_x log10 st (resolved_low_cut st lc) (resolved_high_cut st hc))
          (fit_y log10 st (resolved_low_cut st lc) (resolved_high_cut st hc))
          (if log_break then b0 else log10 b0)).brk)) < mfp) :
    (fit_pspec ols lmseg log10 pow10 ln10 st (some b0) log_break lc hc
        mfp).1.brk_err = st.brk_err ∧
    (fit_pspec ols lmseg log10 pow10 ln10 st (some b0) log_break lc hc
        mfp).1.brk = none ∧
    (fit_pspec ols lmseg log10 pow10 ln10 st none log_break lc hc
        mfp).1.brk_err = none := by
  simp [fit_pspec, h5, hfew]

theorem fit_pspec_break_rejected_preserves_brk_err_witness :
    (fit_pspec olsW lmsegW id id 1 stW (some 5) true none none
        10).1.brk_err = stW.brk_err ∧
    (fit_pspec olsW lmsegW id id 1 stW none true none none
        10).1.brk_err = none := by
  have h := fit_pspec_break_rejected_preserves_brk_err olsW lmsegW id id 1
    stW 5 true none none 10 (by rfl)
    (by norm_num [fit_x, fit_pairs, clip_func, resolved_low_cut,
      resolved_high_cut, default_low_cut, default_high_cut, ps2D_shape_max,
      listMax, stW, lmsegW, List.zip, List.zipWith, List.filter,
      List.countP_cons, List.countP_nil, Option.getD_none, List.headD])
  exact ⟨h.1, h.2.2⟩

theorem linspace_length (a b : ℚ) (n : ℕ) : (linspace a b n).length = n := by
  unfold linspace
  split
  next h => simp [h]
  next h => simp

theorem linspace_head (a b : ℚ) (n : ℕ) (hn : 1 ≤ n) :
    (linspace a b n).head? = some a := by
  unfold linspace
  split
  next h => rfl
  next h =>
    obtain ⟨m, rfl⟩ := Nat.exists_eq_succ_of_ne_zero (by omega : n ≠ 0)
    rw [List.range_succ_eq_map]
    simp

theorem linspace_getLast (a b : ℚ) (n : ℕ) (hn : 2 ≤ n) :
    (linspace a b n).getLast? = some b := by
  unfold linspace
  rw [if_neg (by omega : ¬ n = 1)]
  obtain ⟨m, rfl⟩ := Nat.exists_eq_succ_of_ne_zero (by omega : n ≠ 0)
  rw [List.range_succ, List.map_append, List.map_cons, List.map_nil,
    List.getLast?_concat]
  have hm : ((m : ℚ)) ≠ 0 := Nat.cast_ne_zero.mpr (by omega)
  have hc : ((m + 1 : ℕ) : ℚ) - 1 = (m : ℚ) := by push_cast; ring
  rw [hc]
  congr 1
  field_simp

theorem linspace_uniform (a b : ℚ) (n : ℕ) : UniformSpacing (linspace a b n) := by
  unfold UniformSpacing linspace
  split
  · exact ⟨0, by simp⟩
  · refine ⟨(b - a) / ((n : ℚ) - 1), ?_⟩
    rw [List.chain'_map]
    cases n with
    | zero => simp
    | succ m =>
      rw [List.chain'_range_succ]
      intro i hi
      push_cast
      ring

theorem linspace_chain_lt (a b : ℚ) (n : ℕ) (hab : a < b) :
    StrictlyAscending (linspace a b n) := by
  unfold StrictlyAscending linspace
  split
  · simp
  next hne =>
    rw [List.chain'_map]
    cases n with
    | zero => simp
    | succ m =>
      rw [List.chain'_range_succ]
      intro i hi
      have hm : 1 ≤ m := by omega
      have h1 : (1 : ℚ) ≤ (m : ℚ) := by exact_mod_cast hm
      have hs : 0 < (b - a) / (((m + 1 : ℕ) : ℚ) - 1) := by
        apply div_pos (by linarith)
        push_cast
        linarith
      push_cast at hs ⊢
      nlinarith [hs]

theorem uniformSpacing_reverse {l : List ℚ} (h : UniformSpacing l) :
    UniformSpacing l.reverse := by
  obtain ⟨d, hd⟩ := h
  refine ⟨-d, ?_⟩
  rw [List.chain'_reverse]
  exact hd.imp (fun {a b} hab => by simp only [flip] at *; linarith)

theorem chain_lt_reverse {l : List ℚ} (h : StrictlyAscending l) :
    StrictlyDescending l.reverse := by
  unfold StrictlyAscending StrictlyDescending at *
  rw [List.chain'_reverse]
  exact h.imp (fun {a b} hab => hab)

/-- C6: for every cube and regrid target width, `spectral_regrid_cube`
raises a fatal error (before any data mutation — the model is pure up to
that point) when the target is strictly narrower than the current channel
width, emits a non-fatal warning and returns the original cube unchanged
when the widths tie, and only a strictly coarser target proceeds to the
smoothing-and-resampling branch. -/
theorem spectral_regrid_validation (c : SpecCube) (isPix : Bool) (v : ℚ) :
    (diff_factor c isPix v = 1 →
      spectral_regrid_cube c (.qty isPix v) .regrid =
        .ok (.unchangedWarn c.spectral_axis)) ∧
    (diff_factor c isPix v < 1 →
      spectral_regrid_cube c (.qty isPix v) .regrid =
        .error (.upsample (target_resolution c isPix v)
          (diff_factor c isPix v))) ∧
    (1 < diff_factor c isPix v →
      spectral_regrid_cube c (.qty isPix v) .regrid =
        .ok (.regridded (regrid_axis c isPix v))) := by
  refine ⟨fun h => ?_, fun h => ?_, fun h => ?_⟩
  · simp [spectral_regrid_cube, h]
  · simp [spectral_regrid_cube, h, ne_of_lt h]
  · simp [spectral_regrid_cube, h.ne', lt_asymm h]

theorem spectral_regrid_validation_witness :
    spectral_regrid_cube ⟨[0, 1, 2, 3]⟩ (.qty true 1) .regrid =
      .ok (.unchangedWarn (SpecCube.mk [0, 1, 2, 3]).spectral_axis) ∧
    spectral_regrid_cube ⟨[0, 1, 2, 3]⟩ (.qty true (1 / 2)) .regrid =
      .error (.upsample (target_resolution ⟨[0, 1, 2, 3]⟩ true (1 / 2))
        (diff_factor ⟨[0, 1, 2, 3]⟩ true (1 / 2))) ∧
    spectral_regrid_cube ⟨[0, 1, 2, 3]⟩ (.qty true 2) .regrid =
      .ok (.regridded (regrid_axis ⟨[0, 1, 2, 3]⟩ true 2)) := by
  refine ⟨(spectral_regrid_validation _ _ _).1 ?_,
    (spectral_regrid_validation _ _ _).2.1 ?_,
    (spectral_regrid_validation _ _ _).2.2 ?_⟩ <;>
    norm_num [diff_factor, target_resolution, axis_step, abs_of_nonneg,
      List.getD_cons_zero, List.getD_cons_succ]

/-- C7 (amended): for every valid regrid call with a strictly coarser
target, the new spectral axis is a uniform grid with exactly
`floor(original_channel_count / ratio)` samples (ratio the absolute ratio
of target to current width); provided that count is at least two and the
original axis is non-constant, its endpoints are the minimum and maximum of
the original spectral axis and it runs in the same direction as the input
axis (ascending for a non-negative step, descending for a negative one).
With a single-sample output (for example three channels at ratio two) the
maximum is not an endpoint, so the extra provisos are necessary. -/
theorem spectral_regrid_axis_properties (c : SpecCube) (isPix : Bool)
    (v : ℚ) (hcoarse : 1 < diff_factor c isPix v)
    (hn : 2 ≤ regrid_num_chan c isPix v)
    (hne : listMin c.spectral_axis < listMax c.spectral_axis) :
    spectral_regrid_cube c (.qty isPix v) .regrid =
      .ok (.regridded (regrid_axis c isPix v)) ∧
    (regrid_axis c isPix v).length =
      (⌊(c.spectral_axis.length : ℚ) / diff_factor c isPix v⌋).toNat ∧
    UniformSpacing (regrid_axis c isPix v) ∧
    (0 ≤ axis_step c →
      (regrid_axis c isPix v).head? = some (listMin c.spectral_axis) ∧
      (regrid_axis c isPix v).getLast? = some (listMax c.spectral_axis) ∧
      StrictlyAscending (regrid_axis c isPix v)) ∧
    (axis_step c < 0 →
      (regrid_axis c isPix v).head? = some (listMax c.spectral_axis) ∧
      (regrid_axis c isPix v).getLast? = some (listMin c.spectral_axis) ∧
      StrictlyDescending (regrid_axis c isPix v)) := by
  refine ⟨?_, ?_, ?_, fun hstep => ?_, fun hstep => ?_⟩
  · simp [spectral_regrid_cube, hcoarse.ne', lt_asymm hcoarse]
  · simp only [regrid_axis]
    split <;> simp [linspace_length, regrid_num_chan]
  · simp only [regrid_axis]
    split
    · exact uniformSpacing_reverse (linspace_uniform _ _ _)
    · exact linspace_uniform _ _ _
  · simp only [regrid_axis]
    rw [if_neg (not_lt.mpr hstep)]
    exact ⟨linspace_head _ _ _ (by omega), linspace_getLast _ _ _ hn,
      linspace_chain_lt _ _ _ hne⟩
  · simp only [regrid_axis]
    rw [if_pos hstep]
    refine ⟨?_, ?_, chain_lt_reverse (linspace_chain_lt _ _ _ hne)⟩
    · rw [List.head?_reverse]
      exact linspace_getLast _ _ _ hn
    · rw [List.getLast?_reverse]
      exact linspace_head _ _ _ (by omega)

theorem spectral_regrid_axis_properties_witness :
    spectral_regrid_cube ⟨[0, 1, 2, 3, 4, 5, 6, 7]⟩ (.qty true 2) .regrid =
      .ok (.regridded (regrid_axis ⟨[0, 1, 2, 3, 4, 5, 6, 7]⟩ true 2)) :=
  (spectral_regrid_axis_properties ⟨[0, 1, 2, 3, 4, 5, 6, 7]⟩ true 2
    (by norm_num [diff_factor, target_resolution, axis_step, abs_of_nonneg,
      List.getD_cons_zero, List.getD_cons_succ])
    (by norm_num [regrid_num_chan, diff_factor, target_resolution, axis_step,
      abs_of_nonneg, List.getD_cons_zero, List.getD_cons_succ])
    (by norm_num [listMin, listMax])).1

/-- C7 counterexample: a three-channel cube regridded at ratio two yields
the single-sample axis `[0]`, whose endpoints do not include the original
maximum `2` — the claim as stated fails for this valid regrid call. -/
theorem spectral_regrid_axis_endpoints_counterexample :
    spectral_regrid_cube ⟨[0, 1, 2]⟩ (.qty true 2) .regrid =
      .ok (.regridded [0]) ∧
    listMax (SpecCube.mk [0, 1, 2]).spectral_axis = 2 ∧
    ¬ ((2 : ℚ) ∈ ([0] : List ℚ)) := by
  refine ⟨?_, by norm_num [listMax], by norm_num⟩
  norm_num [spectral_regrid_cube, diff_factor, target_resolution, axis_step,
    abs_of_nonneg, List.getD_cons_zero, List.getD_cons_succ, regrid_axis,
    regrid_num_chan, linspace, listMin, listMax]
